import Mathlib

/-!
Verification development for the Cross-Source Verification & Reconciliation
Engine of the FinCheck repository (`StatementVerifier.py`).

Modelling conventions:
* JSON scalar field values that the engine inspects are either numbers or
  strings; they are embedded as `FVal` (`num` over `ℚ`, `str` over `String`).
  Python `float` arithmetic is modelled exactly over `ℚ`; IEEE rounding is
  abstracted away, which is irrelevant to the control-flow and algebraic
  properties considered here.
* `float(x)` applied to such a value is modelled by `pyFloat`: a number parses
  to itself, a string is parsed as an optionally signed decimal literal with
  surrounding whitespace stripped (exponents, `inf`/`nan` and digit
  underscores are not modelled; none of the inputs in play use them).
  A failed parse is `none`, matching the caught `ValueError`.
* A missing JSON key is modelled with `Option`; the `.get(key, default)`
  calls of the source become `Option.getD`.
* `difflib.SequenceMatcher(None, a, b).ratio()` is modelled by `seqRatio`
  through the Ratcliff/Obershelp semantics of `find_longest_match`,
  including the `autojunk` heuristic: when `b` holds at least 200 tokens,
  values occurring more than `len(b) // 100 + 1` times are purged from the
  match index, so the main loop only chains non-popular matches
  (`runLenP`/`candidates`/`flm`, first maximal block, earliest in `a` then
  in `b`); the best block is then widened by the two junk-free extension
  loops (`extendBack`/`extendFwd`), which also run over popular elements —
  the two junk-extension loops of the source are vacuous because `isjunk`
  is `None` and the junk set is empty.  `get_matching_blocks` recurses on
  both sides of the block with the popularity index computed once from the
  whole `b`, and `ratio` returns `2*M/(|a|+|b|)` (`1` when both sequences
  are empty).
-/

/-! ### String constants used by the source -/

def unknownText : String := "unknown"

def zeroText : String := "0"

def emptyText : String := ""

/-! ### Python whitespace, word characters, digits -/

def pyIsSpace (c : Char) : Bool :=
  c == ' ' || c == '\t' || c == '\n' || c == '\r' || c == '\x0b' || c == '\x0c'

/-- ASCII model of the regex class `\w` (letters, digits, underscore). -/
def isWordChar (c : Char) : Bool :=
  c.isAlphanum || c == '_'

/-! ### Model of Python `float(...)` on JSON scalar values -/

/-- A JSON scalar value as the engine sees it: a number or a string. -/
inductive FVal where
  | num (q : ℚ)
  | str (s : String)
deriving DecidableEq

def digitsToNat (cs : List Char) : ℕ :=
  cs.foldl (fun n c => 10 * n + (c.toNat - 48)) 0

/-- Parse an unsigned decimal literal: `d+`, `d+.d*` or `.d+`. -/
def parseUnsigned (cs : List Char) : Option ℚ :=
  let ip := cs.takeWhile Char.isDigit
  let rest := cs.dropWhile Char.isDigit
  match rest with
  | [] => if ip.isEmpty then none else some (digitsToNat ip)
  | '.' :: fp =>
      if fp.all Char.isDigit && (!ip.isEmpty || !fp.isEmpty) then
        some ((digitsToNat ip : ℚ) + (digitsToNat fp : ℚ) / 10 ^ fp.length)
      else none
  | _ => none

/-- Model of Python `float(s)` for a string `s` (whitespace stripped,
optional single leading sign, decimal literal). -/
def pyFloatStr (s : String) : Option ℚ :=
  let cs := ((s.data.dropWhile pyIsSpace).reverse.dropWhile pyIsSpace).reverse
  match cs with
  | '+' :: rest => parseUnsigned rest
  | '-' :: rest => (parseUnsigned rest).map Neg.neg
  | _ => parseUnsigned cs

/-- Model of Python `float(x)` on a JSON scalar (`ValueError` becomes `none`). -/
def pyFloat : FVal → Option ℚ
  | .num q => some q
  | .str s => pyFloatStr s

/-! ### Data model of the two page collections -/

/-- A transaction of the AI-declared structured data.  Only the `amount`
field is read by the engine (`tx.get("amount", "0")`); the `date` field is
never consulted and is omitted. -/
structure Tx where
  amount : Option FVal
deriving DecidableEq

/-- An AI-side page (`self.pages_ai["pages"]` entry).  `none` in
`transactions` models an absent `transactions` key as well as any non-list
value (both are skipped identically by the source). -/
structure AIPage where
  page_number : ℕ
  page_text : Option String
  opening_balance : Option FVal
  closing_balance : Option FVal
  transactions : Option (List Tx)
deriving DecidableEq

/-- A PDF-side page (`self.pages_pdf["pages"]` entry). -/
structure PdfPage where
  page_number : ℕ
  page_text : Option String
deriving DecidableEq

/-- `page_data.get("opening_balance", "unknown")`. -/
def openingRaw (p : AIPage) : FVal :=
  p.opening_balance.getD (.str unknownText)

/-- `page_data.get("closing_balance", "unknown")`. -/
def closingRaw (p : AIPage) : FVal :=
  p.closing_balance.getD (.str unknownText)

/-- `tx.get("amount", "0")`. -/
def amountRaw (t : Tx) : FVal :=
  t.amount.getD (.str zeroText)

/-! ### `preprocess_text` and tokenisation (`compare_text`) -/

/-- Character stream of `preprocess_text`: lowercase, drop punctuation
(everything that is neither `\w` nor whitespace). Collapsing whitespace and
stripping are absorbed by the whitespace-splitting `wordsAux` below, which
mirrors Python `str.split()` with no argument. -/
def preprocessChars (cs : List Char) : List Char :=
  (cs.map Char.toLower).filter (fun c => isWordChar c || pyIsSpace c)

def wordsAux : List Char → List Char → List String
  | [], [] => []
  | [], w => [String.mk w.reverse]
  | c :: cs, w =>
      if pyIsSpace c then
        if w.isEmpty then wordsAux cs []
        else String.mk w.reverse :: wordsAux cs []
      else wordsAux cs (c :: w)

/-- `preprocess_text(text).split()`: the token sequence compared per page. -/
def tokenize (s : String) : List String :=
  wordsAux (preprocessChars s.data) []

/-! ### Model of `difflib.SequenceMatcher(None, a, b).ratio()` -/

/-- Length of the common prefix run of two token sequences. -/
def runLen : List String → List String → ℕ
  | x :: xs, y :: ys => if x = y then runLen xs ys + 1 else 0
  | _, _ => 0

/-- The autojunk popularity test of `SequenceMatcher.__chain_b`: when `b`
holds at least 200 tokens, every value occurring more than
`len(b) // 100 + 1` times is purged from the match index `b2j`.  The source
passes `isjunk = None`, so the junk set itself is always empty. -/
def isPopular (b : List String) (v : String) : Bool :=
  decide (200 ≤ b.length) && decide (b.length / 100 + 1 < b.count v)

/-- Length of the common prefix run restricted to non-popular values: the
chains of the `find_longest_match` main loop only pass through positions
whose value is still present in `b2j`. -/
def runLenP (pop : String → Bool) : List String → List String → ℕ
  | x :: xs, y :: ys =>
      if x = y ∧ pop x = false then runLenP pop xs ys + 1 else 0
  | _, _ => 0

/-- All main-loop matching-block candidates `(i, j, k)`: the run of
non-popular matches starting at position `i` of `a` and `j` of `b`,
enumerated in the tie-breaking order of `find_longest_match` (earliest in
`a`, then earliest in `b`). -/
def candidates (pop : String → Bool) (a b : List String) :
    List (ℕ × ℕ × ℕ) :=
  (List.range a.length).flatMap fun i =>
    (List.range b.length).map fun j =>
      (i, j, runLenP pop (a.drop i) (b.drop j))

/-- Keep the first candidate attaining the maximal run length. -/
def pickBest (l : List (ℕ × ℕ × ℕ)) : ℕ × ℕ × ℕ :=
  l.foldl (fun acc c => if acc.2.2 < c.2.2 then c else acc) (0, 0, 0)

/-- The main loop of `SequenceMatcher.find_longest_match`: the first
maximal popularity-free matching block. -/
def flm (pop : String → Bool) (a b : List String) : ℕ × ℕ × ℕ :=
  pickBest (candidates pop a b)

/-- The first extension loop of `find_longest_match`: widen the block
leftwards over equal elements.  Only equality is tested because the junk
set is empty. -/
def extendBack (a b : List String) (t : ℕ × ℕ × ℕ) : ℕ × ℕ × ℕ :=
  (t.1 - runLen ((a.take t.1).reverse) ((b.take t.2.1).reverse),
    t.2.1 - runLen ((a.take t.1).reverse) ((b.take t.2.1).reverse),
    t.2.2 + runLen ((a.take t.1).reverse) ((b.take t.2.1).reverse))

/-- The second extension loop of `find_longest_match`: widen the block
rightwards over equal elements.  The two junk-extension loops that follow
in the source are vacuous because `isjunk` is `None`. -/
def extendFwd (a b : List String) (t : ℕ × ℕ × ℕ) : ℕ × ℕ × ℕ :=
  (t.1, t.2.1,
    t.2.2 + runLen (a.drop (t.1 + t.2.2)) (b.drop (t.2.1 + t.2.2)))

/-- `find_longest_match` over whole windows: main loop, then the two
extension loops. -/
def bestBlock (pop : String → Bool) (a b : List String) : ℕ × ℕ × ℕ :=
  extendFwd a b (extendBack a b (flm pop a b))

theorem runLen_le_left (a b : List String) : runLen a b ≤ a.length := by
  induction a generalizing b with
  | nil => simp [runLen]
  | cons x xs ih =>
      cases b with
      | nil => simp [runLen]
      | cons y ys =>
          simp only [runLen, List.length_cons]
          split
          · exact Nat.succ_le_succ (ih ys)
          · simp

theorem runLen_le_right (a b : List String) : runLen a b ≤ b.length := by
  induction a generalizing b with
  | nil => simp [runLen]
  | cons x xs ih =>
      cases b with
      | nil => simp [runLen]
      | cons y ys =>
          simp only [runLen, List.length_cons]
          split
          · exact Nat.succ_le_succ (ih ys)
          · simp

theorem runLenP_le_left (pop : String → Bool) (a b : List String) :
    runLenP pop a b ≤ a.length := by
  induction a generalizing b with
  | nil => simp [runLenP]
  | cons x xs ih =>
      cases b with
      | nil => simp [runLenP]
      | cons y ys =>
          simp only [runLenP, List.length_cons]
          split
          · exact Nat.succ_le_succ (ih ys)
          · simp

theorem runLenP_le_right (pop : String → Bool) (a b : List String) :
    runLenP pop a b ≤ b.length := by
  induction a generalizing b with
  | nil => simp [runLenP]
  | cons x xs ih =>
      cases b with
      | nil => simp [runLenP]
      | cons y ys =>
          simp only [runLenP, List.length_cons]
          split
          · exact Nat.succ_le_succ (ih ys)
          · simp

theorem mem_candidates {pop : String → Bool} {a b : List String}
    {c : ℕ × ℕ × ℕ} (h : c ∈ candidates pop a b) :
    c.1 < a.length ∧ c.2.1 < b.length ∧
      c.2.2 = runLenP pop (a.drop c.1) (b.drop c.2.1) := by
  simp only [candidates, List.mem_flatMap, List.mem_map, List.mem_range] at h
  obtain ⟨i, hi, j, hj, rfl⟩ := h
  exact ⟨hi, hj, rfl⟩

theorem candidates_mem_intro (pop : String → Bool) (a b : List String)
    {i j : ℕ} (hi : i < a.length) (hj : j < b.length) :
    (i, j, runLenP pop (a.drop i) (b.drop j)) ∈ candidates pop a b := by
  simp only [candidates, List.mem_flatMap, List.mem_map, List.mem_range]
  exact ⟨i, hi, j, hj, rfl⟩

theorem foldlPick_eq_or_mem (l : List (ℕ × ℕ × ℕ)) (init : ℕ × ℕ × ℕ) :
    l.foldl (fun acc c => if acc.2.2 < c.2.2 then c else acc) init = init ∨
    l.foldl (fun acc c => if acc.2.2 < c.2.2 then c else acc) init ∈ l := by
  induction l generalizing init with
  | nil => simp
  | cons x xs ih =>
      simp only [List.foldl_cons]
      rcases ih (if init.2.2 < x.2.2 then x else init) with h | h
      · rw [h]
        split
        · right; simp
        · left; rfl
      · right; exact List.mem_cons_of_mem _ h

theorem foldlPick_stable (l : List (ℕ × ℕ × ℕ)) (init : ℕ × ℕ × ℕ)
    (h : ∀ c ∈ l, c.2.2 ≤ init.2.2) :
    l.foldl (fun acc c => if acc.2.2 < c.2.2 then c else acc) init = init := by
  induction l with
  | nil => simp
  | cons x xs ih =>
      have hx : x.2.2 ≤ init.2.2 := h x (by simp)
      simp only [List.foldl_cons, if_neg (Nat.not_lt.mpr hx)]
      exact ih (fun c hc => h c (List.mem_cons_of_mem _ hc))

theorem flm_eq_or_mem (pop : String → Bool) (a b : List String) :
    flm pop a b = (0, 0, 0) ∨ flm pop a b ∈ candidates pop a b :=
  foldlPick_eq_or_mem _ _

theorem flm_le (pop : String → Bool) (a b : List String) :
    (flm pop a b).1 + (flm pop a b).2.2 ≤ a.length ∧
    (flm pop a b).2.1 + (flm pop a b).2.2 ≤ b.length := by
  rcases flm_eq_or_mem pop a b with heq | hmem
  · rw [heq]; simp
  · obtain ⟨hi, hj, hk⟩ := mem_candidates hmem
    constructor
    · have := runLenP_le_left pop (a.drop (flm pop a b).1)
        (b.drop (flm pop a b).2.1)
      rw [← hk, List.length_drop] at this
      omega
    · have := runLenP_le_right pop (a.drop (flm pop a b).1)
        (b.drop (flm pop a b).2.1)
      rw [← hk, List.length_drop] at this
      omega

theorem extendBack_le (a b : List String) (t : ℕ × ℕ × ℕ)
    (h1 : t.1 + t.2.2 ≤ a.length) (h2 : t.2.1 + t.2.2 ≤ b.length) :
    (extendBack a b t).1 + (extendBack a b t).2.2 ≤ a.length ∧
    (extendBack a b t).2.1 + (extendBack a b t).2.2 ≤ b.length := by
  have he1 := runLen_le_left ((a.take t.1).reverse) ((b.take t.2.1).reverse)
  have he2 := runLen_le_right ((a.take t.1).reverse) ((b.take t.2.1).reverse)
  simp only [List.length_reverse, List.length_take] at he1 he2
  unfold extendBack
  constructor <;> simp only [] <;> omega

theorem extendFwd_le (a b : List String) (t : ℕ × ℕ × ℕ)
    (h1 : t.1 + t.2.2 ≤ a.length) (h2 : t.2.1 + t.2.2 ≤ b.length) :
    (extendFwd a b t).1 + (extendFwd a b t).2.2 ≤ a.length ∧
    (extendFwd a b t).2.1 + (extendFwd a b t).2.2 ≤ b.length := by
  have hf1 := runLen_le_left (a.drop (t.1 + t.2.2)) (b.drop (t.2.1 + t.2.2))
  have hf2 := runLen_le_right (a.drop (t.1 + t.2.2)) (b.drop (t.2.1 + t.2.2))
  simp only [List.length_drop] at hf1 hf2
  unfold extendFwd
  constructor <;> simp only [] <;> omega

theorem bestBlock_le (pop : String → Bool) (a b : List String) :
    (bestBlock pop a b).1 + (bestBlock pop a b).2.2 ≤ a.length ∧
    (bestBlock pop a b).2.1 + (bestBlock pop a b).2.2 ≤ b.length := by
  obtain ⟨h1, h2⟩ := flm_le pop a b
  obtain ⟨g1, g2⟩ := extendBack_le a b (flm pop a b) h1 h2
  exact extendFwd_le a b (extendBack a b (flm pop a b)) g1 g2

/-- Total matched length `M` of `get_matching_blocks`: take the longest
match (with its extensions) and recurse to its left and to its right.  The
popularity predicate is computed once from the full `b` and carried down,
exactly as `b2j` is built once and shared by all window calls. -/
def matchTotal (pop : String → Bool) (a b : List String) : ℕ :=
  if h : (bestBlock pop a b).2.2 = 0 then 0
  else
    matchTotal pop (a.take (bestBlock pop a b).1)
      (b.take (bestBlock pop a b).2.1) + (bestBlock pop a b).2.2 +
      matchTotal pop
        (a.drop ((bestBlock pop a b).1 + (bestBlock pop a b).2.2))
        (b.drop ((bestBlock pop a b).2.1 + (bestBlock pop a b).2.2))
termination_by a.length + b.length
decreasing_by
  · obtain ⟨h1, h2⟩ := bestBlock_le pop a b
    simp only [List.length_take]
    omega
  · obtain ⟨h1, h2⟩ := bestBlock_le pop a b
    simp only [List.length_drop]
    omega

/-- Model of `difflib.SequenceMatcher(None, a, b).ratio()`. -/
def seqRatio (a b : List String) : ℚ :=
  if a.length + b.length = 0 then 1
  else 2 * (matchTotal (isPopular b) a b : ℚ) /
    ((a.length : ℚ) + (b.length : ℚ))

/-! ### `extract_numbers` (regex `[+-]?\d+(?:\.\d+)?`, then `lstrip('+-')`) -/

def headIsDigit : List Char → Bool
  | d :: _ => d.isDigit
  | [] => false

/-- Mode of the left-to-right scanner: outside any numeric token, inside the
integer digit run, or inside the fractional digit run. -/
inductive ScanMode where
  | outside
  | intPart
  | fracPart
deriving DecidableEq

/-- Left-to-right scan equivalent to `re.findall` for the pattern
`[+-]?\d+(?:\.\d+)?`, already emitting each match with its single optional
leading sign stripped (the source applies `lstrip('+-')` to every match).
A sign only opens a token when a digit follows it, and a dot only continues
a token when a digit follows it; `cur` holds the current token reversed. -/
def scanAux : List Char → ScanMode → List Char → List String
  | [], .outside, _ => []
  | [], _, cur => [String.mk cur.reverse]
  | c :: cs, .outside, _ =>
      if c.isDigit then scanAux cs .intPart [c]
      else if (c == '+' || c == '-') && headIsDigit cs then
        scanAux cs .intPart []
      else scanAux cs .outside []
  | c :: cs, .intPart, cur =>
      if c.isDigit then scanAux cs .intPart (c :: cur)
      else if c == '.' && headIsDigit cs then scanAux cs .fracPart ('.' :: cur)
      else
        String.mk cur.reverse ::
          (if (c == '+' || c == '-') && headIsDigit cs then
            scanAux cs .intPart []
          else scanAux cs .outside [])
  | c :: cs, .fracPart, cur =>
      if c.isDigit then scanAux cs .fracPart (c :: cur)
      else
        String.mk cur.reverse ::
          (if (c == '+' || c == '-') && headIsDigit cs then
            scanAux cs .intPart []
          else scanAux cs .outside [])

/-- `StatementVerifier.extract_numbers`. -/
def extract_numbers (s : String) : List String :=
  scanAux s.data .outside []

/-! ### `compare_numbers` -/

/-- Per-page common-token count: iterate the distinct AI tokens and add
`min(count, pdf_counter.get(token, 0))`, as the `Counter` loop does. -/
def commonCount (xs ys : List String) : ℕ :=
  xs.dedup.foldl (fun acc t => acc + min (xs.count t) (ys.count t)) 0

/-- Page lookup used by `compare_text`:
`next((p for p in pages if p.get("page_number") == page_num), {})` followed
by `.get("page_text", "unknown")`. -/
def aiTextAt (pages : List AIPage) (pn : ℕ) : String :=
  (((pages.find? fun p => p.page_number == pn).bind fun p => p.page_text).getD
    unknownText)

def pdfTextAt (pages : List PdfPage) (pn : ℕ) : String :=
  (((pages.find? fun p => p.page_number == pn).bind fun p => p.page_text).getD
    unknownText)

/-- Page lookup used by `compare_numbers`: same, but the default text is the
empty string (`.get("page_text", "")`). -/
def aiNumTextAt (pages : List AIPage) (pn : ℕ) : String :=
  (((pages.find? fun p => p.page_number == pn).bind fun p => p.page_text).getD
    emptyText)

def pdfNumTextAt (pages : List PdfPage) (pn : ℕ) : String :=
  (((pages.find? fun p => p.page_number == pn).bind fun p => p.page_text).getD
    emptyText)

structure TextReport where
  page_similarities : List (ℕ × ℚ)
  ai_word_similarity : ℚ
deriving DecidableEq

/-- `StatementVerifier.compare_text`: visit page numbers `1` to
`max(len(ai_pages), len(pdf_pages))`, score each pair of token sequences,
and average; with no visited pages the overall similarity is `0`. -/
def compare_text (ai : List AIPage) (pdf : List PdfPage) : TextReport :=
  let sims := (List.range' 1 (max ai.length pdf.length)).map fun pn =>
    (pn, seqRatio (tokenize (aiTextAt ai pn)) (tokenize (pdfTextAt pdf pn)))
  { page_similarities := sims
    ai_word_similarity :=
      if sims.isEmpty then 0 else (sims.map Prod.snd).sum / (sims.length : ℚ) }

structure NumReport where
  ai_numeric_match_ratio : ℚ
  ai_numeric_count_diff : ℕ
deriving DecidableEq

/-- `StatementVerifier.compare_numbers`: accumulate the common count and the
two token counts over the visited pages, then form the overall ratio and the
absolute count difference from the totals. -/
def compare_numbers (ai : List AIPage) (pdf : List PdfPage) : NumReport :=
  let acc := (List.range' 1 (max ai.length pdf.length)).foldl
    (fun (acc : ℕ × ℕ × ℕ) pn =>
      (acc.1 + commonCount (extract_numbers (aiNumTextAt ai pn))
          (extract_numbers (pdfNumTextAt pdf pn)),
        acc.2.1 + (extract_numbers (aiNumTextAt ai pn)).length,
        acc.2.2 + (extract_numbers (pdfNumTextAt pdf pn)).length))
    (0, 0, 0)
  { ai_numeric_match_ratio :=
      if 0 < max acc.2.1 acc.2.2 then
        (acc.1 : ℚ) / (max acc.2.1 acc.2.2 : ℚ) * 100
      else 0
    ai_numeric_count_diff := ((acc.2.1 : ℤ) - (acc.2.2 : ℤ)).natAbs }

/-! ### `verify_opening_closing_balance_consistency` -/

/-- The contribution of one transaction to the page sum: the parsed amount,
or `0` when parsing fails (`ValueError` branch). -/
def txAmount (t : Tx) : ℚ :=
  (pyFloat (amountRaw t)).getD 0

/-- Sum of the transaction amounts of a page. -/
def txSum (ts : List Tx) : ℚ :=
  (ts.map txAmount).sum

/-- The page's effective opening balance, or `none` when the page is
skipped: carry the previous computed closing when the raw opening is the
`"unknown"` sentinel and a previous closing exists, otherwise parse the raw
opening. -/
def effectiveOpening (previous_closing : Option ℚ) (raw : FVal) : Option ℚ :=
  if raw = .str unknownText ∧ previous_closing.isSome then previous_closing
  else pyFloat raw

/-- Mutable state of the balance-consistency pass, including the report
attributes that are only written when the final list element is processed. -/
structure VState where
  previous_closing : Option ℚ
  any_mismatch : Bool
  total_transactions : ℕ
  opening_balance : Option ℚ
  closing_balance : Option ℚ
  transaction_count : ℕ
  computed_vs_stated_diff : ℚ
deriving DecidableEq

def initState : VState :=
  { previous_closing := none
    any_mismatch := false
    total_transactions := 0
    opening_balance := none
    closing_balance := none
    transaction_count := 0
    computed_vs_stated_diff := 0 }

/-- One iteration of the page loop.  `isLast` is `i == len(pages) - 1`:
only then are the report attributes stored. -/
def processPage (tol : ℚ) (st : VState) (p : AIPage) (isLast : Bool) : VState :=
  match p.transactions with
  | none => st
  | some txs =>
      match effectiveOpening st.previous_closing (openingRaw p) with
      | none => st
      | some ob =>
          let stated := pyFloat (closingRaw p)
          let expected := ob + txSum txs
          let diffValue : ℚ :=
            match stated with
            | some c => |expected - c|
            | none => 0
          let mismatchB : Bool :=
            match stated with
            | some c => decide (tol < |expected - c|)
            | none => false
          let stMid : VState :=
            { st with
              previous_closing := some expected
              any_mismatch := st.any_mismatch || mismatchB
              total_transactions := st.total_transactions + txs.length }
          if isLast then
            { stMid with
              opening_balance := some ob
              closing_balance := some (stated.getD expected)
              transaction_count := stMid.total_transactions
              computed_vs_stated_diff := diffValue }
          else stMid

/-- The page loop: each page is handed `isLast = (it is the final list
element)`, matching `enumerate` with the `i == len(pages) - 1` test. -/
def goBalance (tol : ℚ) : VState → List AIPage → VState
  | st, [] => st
  | st, p :: ps => goBalance tol (processPage tol st p ps.isEmpty) ps

/-- The attributes read downstream after the balance pass. -/
structure BalanceReport where
  opening_balance : Option ℚ
  closing_balance : Option ℚ
  transaction_count : ℕ
  computed_vs_stated_diff : ℚ
  balance_mismatch : Bool
deriving DecidableEq

/-- `StatementVerifier.verify_opening_closing_balance_consistency`.  With an
empty page list the initialized values are returned unchanged (the early
`return`); otherwise the loop runs and `balance_mismatch` reflects whether
any processed page mismatched. -/
def verify_opening_closing_balance_consistency
    (pages : List AIPage) (tol : ℚ) : BalanceReport :=
  let fin := goBalance tol initState pages
  { opening_balance := fin.opening_balance
    closing_balance := fin.closing_balance
    transaction_count := fin.transaction_count
    computed_vs_stated_diff := fin.computed_vs_stated_diff
    balance_mismatch := fin.any_mismatch }

/-! ### Derived per-page observations used to state the claims -/

/-- The carried `previous_closing` after one page: unchanged on a skipped
page, the computed closing on a processed page. -/
def nextPrev (prev : Option ℚ) (p : AIPage) : Option ℚ :=
  match p.transactions with
  | none => prev
  | some txs =>
      match effectiveOpening prev (openingRaw p) with
      | none => prev
      | some ob => some (ob + txSum txs)

/-- The carried `previous_closing` after a list of pages. -/
def prevAfter (prev : Option ℚ) : List AIPage → Option ℚ
  | [] => prev
  | p :: ps => prevAfter (nextPrev prev p) ps

/-- Whether one page raises a balance mismatch, given the carried closing. -/
def pageMismatch (tol : ℚ) (prev : Option ℚ) (p : AIPage) : Bool :=
  match p.transactions with
  | none => false
  | some txs =>
      match effectiveOpening prev (openingRaw p) with
      | none => false
      | some ob =>
          match pyFloat (closingRaw p) with
          | some c => decide (tol < |ob + txSum txs - c|)
          | none => false

/-- Whether any processed page of a list mismatches. -/
def anyMismatch (tol : ℚ) (prev : Option ℚ) : List AIPage → Bool
  | [] => false
  | p :: ps => pageMismatch tol prev p || anyMismatch tol (nextPrev prev p) ps

/-- The number of transactions on one page if it is processed, else `0`. -/
def pageTxCount (prev : Option ℚ) (p : AIPage) : ℕ :=
  match p.transactions with
  | none => 0
  | some txs =>
      match effectiveOpening prev (openingRaw p) with
      | none => 0
      | some _ => txs.length

/-- Total transactions over the processed pages of a list. -/
def processedTxCount (prev : Option ℚ) : List AIPage → ℕ
  | [] => 0
  | p :: ps => pageTxCount prev p + processedTxCount (nextPrev prev p) ps

/-! ### Lemmas about the similarity ratio -/

theorem runLen_self (a : List String) : runLen a a = a.length := by
  induction a with
  | nil => rfl
  | cons x xs ih => simp [runLen, ih]

theorem runLen_nil_left (b : List String) : runLen [] b = 0 := rfl

theorem runLen_nil_right (a : List String) : runLen a [] = 0 := by
  cases a <;> rfl

theorem candidates_nil_left (pop : String → Bool) (b : List String) :
    candidates pop [] b = [] := by
  simp [candidates]

theorem candidates_nil_right (pop : String → Bool) (a : List String) :
    candidates pop a [] = [] := by
  simp [candidates]

theorem flm_nil_left (pop : String → Bool) (b : List String) :
    flm pop [] b = (0, 0, 0) := by
  simp [flm, pickBest, candidates_nil_left]

theorem flm_nil_right (pop : String → Bool) (a : List String) :
    flm pop a [] = (0, 0, 0) := by
  simp [flm, pickBest, candidates_nil_right]

/-- When the main loop finds nothing, the extensions leave the block at the
window origin and grow it by the plain common prefix run. -/
theorem bestBlock_of_flm_zero (pop : String → Bool) (a b : List String)
    (h : flm pop a b = (0, 0, 0)) :
    bestBlock pop a b = (0, 0, runLen a b) := by
  unfold bestBlock extendBack extendFwd
  rw [h]
  simp [runLen_nil_left]

theorem matchTotal_nil_left (pop : String → Bool) (b : List String) :
    matchTotal pop [] b = 0 := by
  rw [matchTotal]
  have h := bestBlock_of_flm_zero pop [] b (flm_nil_left pop b)
  rw [runLen_nil_left] at h
  simp [h]

theorem matchTotal_nil_right (pop : String → Bool) (a : List String) :
    matchTotal pop a [] = 0 := by
  rw [matchTotal]
  have h := bestBlock_of_flm_zero pop a [] (flm_nil_right pop a)
  rw [runLen_nil_right] at h
  simp [h]

/-- Strict lexicographic order on the start positions `(i, j)` of
candidates: the enumeration order of the candidate list. -/
def lexLt (c d : ℕ × ℕ × ℕ) : Prop :=
  c.1 < d.1 ∨ (c.1 = d.1 ∧ c.2.1 < d.2.1)

theorem pairwise_flatMap_of {α β : Type} (R : β → β → Prop) (f : α → List β)
    (l : List α) (hinner : ∀ x ∈ l, (f x).Pairwise R)
    (hcross : l.Pairwise fun x y => ∀ u ∈ f x, ∀ v ∈ f y, R u v) :
    (l.flatMap f).Pairwise R := by
  induction l with
  | nil => simp
  | cons x xs ih =>
      rw [List.flatMap_cons, List.pairwise_append]
      obtain ⟨hx, hxs⟩ := List.pairwise_cons.mp hcross
      refine ⟨hinner x (List.mem_cons_self x xs),
        ih (fun y hy => hinner y (List.mem_cons_of_mem x hy)) hxs, ?_⟩
      intro u hu v hv
      obtain ⟨y, hy, hvy⟩ := List.mem_flatMap.mp hv
      exact hx y hy u hu v hvy

theorem candidates_pairwise (pop : String → Bool) (a b : List String) :
    (candidates pop a b).Pairwise lexLt := by
  unfold candidates
  apply pairwise_flatMap_of
  · intro i hi
    rw [List.pairwise_map]
    exact (List.pairwise_lt_range b.length).imp fun hj => Or.inr ⟨rfl, hj⟩
  · refine (List.pairwise_lt_range a.length).imp ?_
    intro i1 i2 hi u hu v hv
    obtain ⟨j1, hj1, rfl⟩ := List.mem_map.mp hu
    obtain ⟨j2, hj2, rfl⟩ := List.mem_map.mp hv
    exact Or.inl hi

/-- The pick fold keeps the first element strictly exceeding everything
before it and not exceeded later: a first-maximum characterization. -/
theorem foldlPick_first_max (l : List (ℕ × ℕ × ℕ)) :
    ∀ init : ℕ × ℕ × ℕ,
      (l.foldl (fun acc c => if acc.2.2 < c.2.2 then c else acc) init = init ∧
        ∀ c ∈ l, c.2.2 ≤ init.2.2) ∨
      (∃ pre c post, l = pre ++ c :: post ∧
        l.foldl (fun acc c => if acc.2.2 < c.2.2 then c else acc) init = c ∧
        init.2.2 < c.2.2 ∧ (∀ d ∈ pre, d.2.2 < c.2.2) ∧
        ∀ d ∈ post, d.2.2 ≤ c.2.2) := by
  induction l with
  | nil => intro init; left; simp
  | cons x xs ih =>
      intro init
      simp only [List.foldl_cons]
      by_cases hx : init.2.2 < x.2.2
      · rw [if_pos hx]
        rcases ih x with ⟨h1, h2⟩ | ⟨pre, c, post, hl, hres, hlt, hpre, hpost⟩
        · right
          exact ⟨[], x, xs, by simp, h1, hx, by simp, h2⟩
        · right
          refine ⟨x :: pre, c, post, by rw [hl, List.cons_append], hres,
            Nat.lt_trans hx hlt, ?_, hpost⟩
          intro d hd
          rcases List.mem_cons.mp hd with rfl | hd
          · exact hlt
          · exact hpre d hd
      · rw [if_neg hx]
        have hx2 : x.2.2 ≤ init.2.2 := Nat.le_of_not_lt hx
        rcases ih init with ⟨h1, h2⟩ | ⟨pre, c, post, hl, hres, hlt, hpre, hpost⟩
        · left
          refine ⟨h1, ?_⟩
          intro c hc
          rcases List.mem_cons.mp hc with rfl | hc
          · exact hx2
          · exact h2 c hc
        · right
          refine ⟨x :: pre, c, post, by rw [hl, List.cons_append], hres, hlt,
            ?_, hpost⟩
          intro d hd
          rcases List.mem_cons.mp hd with rfl | hd
          · exact Nat.lt_of_le_of_lt hx2 hlt
          · exact hpre d hd

theorem runLenP_le_diag_left (pop : String → Bool) (x : List String) :
    ∀ y : List String, runLenP pop x y ≤ runLenP pop x x := by
  induction x with
  | nil => intro y; simp [runLenP]
  | cons x0 xs ih =>
      intro y
      cases y with
      | nil => simp [runLenP]
      | cons y0 ys =>
          simp only [runLenP]
          split
          · rename_i h
            split
            · exact Nat.succ_le_succ (ih ys)
            · rename_i h2
              obtain ⟨he, hp⟩ := h
              subst he
              simp [hp] at h2
          · simp

theorem runLenP_le_diag_right (pop : String → Bool) (x : List String) :
    ∀ y : List String, runLenP pop x y ≤ runLenP pop y y := by
  induction x with
  | nil => intro y; simp [runLenP]
  | cons x0 xs ih =>
      intro y
      cases y with
      | nil => simp [runLenP]
      | cons y0 ys =>
          simp only [runLenP]
          split
          · rename_i h
            split
            · exact Nat.succ_le_succ (ih ys)
            · rename_i h2
              obtain ⟨he, hp⟩ := h
              subst he
              simp [hp] at h2
          · simp

/-- On two identical sequences the main loop's best block is diagonal: any
off-diagonal candidate is dominated by a diagonal candidate that appears
strictly earlier in the enumeration and whose run is at least as long, so
it can never become the first strict maximum. -/
theorem flm_self_diag (pop : String → Bool) (a : List String) :
    flm pop a a = (0, 0, 0) ∨
      ((flm pop a a).1 = (flm pop a a).2.1 ∧
        flm pop a a ∈ candidates pop a a) := by
  rcases foldlPick_first_max (candidates pop a a) (0, 0, 0) with ⟨h1, _⟩ |
    ⟨pre, c, post, hl, hres, hlt, hpre, hpost⟩
  · exact Or.inl h1
  · right
    have hflm : flm pop a a = c := hres
    have hmem : c ∈ candidates pop a a := by
      rw [hl]
      exact List.mem_append_right _ (List.mem_cons_self c post)
    rw [hflm]
    refine ⟨?_, hmem⟩
    obtain ⟨hi, hj, hk⟩ := mem_candidates hmem
    by_contra hne
    have hmlt : min c.1 c.2.1 < a.length :=
      Nat.lt_of_le_of_lt (Nat.min_le_left _ _) hi
    have hdom := candidates_mem_intro pop a a hmlt hmlt
    have hdomval : c.2.2 ≤
        runLenP pop (a.drop (min c.1 c.2.1)) (a.drop (min c.1 c.2.1)) := by
      rcases Nat.lt_trichotomy c.1 c.2.1 with h | h | h
      · rw [Nat.min_eq_left (Nat.le_of_lt h), hk]
        exact runLenP_le_diag_left pop _ _
      · exact absurd h hne
      · rw [Nat.min_eq_right (Nat.le_of_lt h), hk]
        exact runLenP_le_diag_right pop _ _
    rw [hl] at hdom
    rcases List.mem_append.mp hdom with hpre2 | hcp
    · have hlt2 := hpre _ hpre2
      simp only [] at hlt2
      omega
    · rcases List.mem_cons.mp hcp with heq | hpost2
      · have e1 := congrArg Prod.fst heq
        have e2 := congrArg (fun t : ℕ × ℕ × ℕ => t.2.1) heq
        simp only [] at e1 e2
        exact hne (e1.symm.trans e2)
      · have hpw := candidates_pairwise pop a a
        rw [hl] at hpw
        have hlex :=
          (List.pairwise_cons.mp (List.pairwise_append.mp hpw).2.1).1 _ hpost2
        have hm1 := Nat.min_le_left c.1 c.2.1
        have hm2 := Nat.min_le_right c.1 c.2.1
        rcases hlex with h | ⟨h1, h2⟩
        · simp only [] at h
          omega
        · simp only [] at h1 h2
          omega

theorem bestBlock_self (pop : String → Bool) (a : List String) :
    bestBlock pop a a = (0, 0, a.length) := by
  rcases flm_self_diag pop a with h0 | ⟨hdiag, hmem⟩
  · rw [bestBlock_of_flm_zero pop a a h0, runLen_self]
  · obtain ⟨hi, hj, hk⟩ := mem_candidates hmem
    obtain ⟨hb1, hb2⟩ := flm_le pop a a
    have hi2 : (flm pop a a).1 ≤ a.length := Nat.le_of_lt hi
    unfold bestBlock extendFwd extendBack
    simp only []
    rw [← hdiag, runLen_self, List.length_reverse, List.length_take,
      runLen_self, List.length_drop, Prod.mk.injEq, Prod.mk.injEq]
    refine ⟨?_, ?_, ?_⟩ <;> omega

theorem matchTotal_self (pop : String → Bool) (a : List String) :
    matchTotal pop a a = a.length := by
  by_cases h : a = []
  · subst h
    exact matchTotal_nil_left pop []
  · rw [matchTotal, bestBlock_self]
    have hn : a.length ≠ 0 := fun hz => h (List.length_eq_zero.mp hz)
    simp [hn, matchTotal_nil_left, List.drop_length]

theorem matchTotal_le_aux (n : ℕ) :
    ∀ (pop : String → Bool) (a b : List String), a.length + b.length ≤ n →
      matchTotal pop a b ≤ min a.length b.length := by
  induction n with
  | zero =>
      intro pop a b hab
      have ha : a = [] := List.length_eq_zero.mp (by omega)
      subst ha
      simp [matchTotal_nil_left]
  | succ n ih =>
      intro pop a b hab
      rw [matchTotal]
      split
      · simp
      · rename_i h
        obtain ⟨h1, h2⟩ := bestBlock_le pop a b
        have hk1 : 1 ≤ (bestBlock pop a b).2.2 := Nat.one_le_iff_ne_zero.mpr h
        have iL := ih pop (a.take (bestBlock pop a b).1)
          (b.take (bestBlock pop a b).2.1)
          (by simp only [List.length_take]; omega)
        have iR := ih pop
          (a.drop ((bestBlock pop a b).1 + (bestBlock pop a b).2.2))
          (b.drop ((bestBlock pop a b).2.1 + (bestBlock pop a b).2.2))
          (by simp only [List.length_drop]; omega)
        simp only [List.length_take, List.length_drop] at iL iR
        omega

theorem matchTotal_le_min (pop : String → Bool) (a b : List String) :
    matchTotal pop a b ≤ min a.length b.length :=
  matchTotal_le_aux (a.length + b.length) pop a b le_rfl

theorem runLen_disjoint (a b : List String) (hd : ∀ x ∈ a, x ∉ b) :
    runLen a b = 0 := by
  cases a with
  | nil => rfl
  | cons x xs =>
      cases b with
      | nil => rfl
      | cons y ys =>
          have hx : x ∉ y :: ys := hd x (by simp)
          have hxy : x ≠ y := by
            intro he; exact hx (he ▸ List.mem_cons_self y ys)
          simp [runLen, hxy]

theorem runLenP_disjoint (pop : String → Bool) (a b : List String)
    (hd : ∀ x ∈ a, x ∉ b) : runLenP pop a b = 0 := by
  cases a with
  | nil => rfl
  | cons x xs =>
      cases b with
      | nil => rfl
      | cons y ys =>
          have hx : x ∉ y :: ys := hd x (by simp)
          have hxy : x ≠ y := by
            intro he; exact hx (he ▸ List.mem_cons_self y ys)
          simp [runLenP, hxy]

theorem flm_disjoint (pop : String → Bool) (a b : List String)
    (hd : ∀ x ∈ a, x ∉ b) : flm pop a b = (0, 0, 0) := by
  unfold flm pickBest
  apply foldlPick_stable
  intro c hc
  obtain ⟨hi, hj, hk⟩ := mem_candidates hc
  have hdd : ∀ x ∈ a.drop c.1, x ∉ b.drop c.2.1 := by
    intro x hx hxb
    exact hd x (List.drop_subset _ a hx) (List.drop_subset _ b hxb)
  rw [hk, runLenP_disjoint pop _ _ hdd]

theorem matchTotal_disjoint (pop : String → Bool) (a b : List String)
    (hd : ∀ x ∈ a, x ∉ b) : matchTotal pop a b = 0 := by
  rw [matchTotal]
  have hbb : bestBlock pop a b = (0, 0, runLen a b) :=
    bestBlock_of_flm_zero pop a b (flm_disjoint pop a b hd)
  rw [runLen_disjoint a b hd] at hbb
  simp [hbb]

theorem seqRatio_nonneg (a b : List String) : 0 ≤ seqRatio a b := by
  unfold seqRatio
  split
  · norm_num
  · positivity

theorem seqRatio_le_one (a b : List String) : seqRatio a b ≤ 1 := by
  unfold seqRatio
  split
  · exact le_rfl
  · rename_i h
    have hM : 2 * matchTotal (isPopular b) a b ≤ a.length + b.length := by
      have := matchTotal_le_min (isPopular b) a b
      omega
    have hpos : (0 : ℚ) < (a.length : ℚ) + (b.length : ℚ) := by
      have hn : 0 < a.length + b.length := Nat.pos_of_ne_zero h
      exact_mod_cast hn
    rw [div_le_one hpos]
    exact_mod_cast hM

theorem seqRatio_self (a : List String) : seqRatio a a = 1 := by
  by_cases h : a = []
  · subst h; simp [seqRatio]
  · have hn : a.length ≠ 0 := fun hz => h (List.length_eq_zero.mp hz)
    unfold seqRatio
    rw [if_neg (by omega), matchTotal_self]
    have hq : ((a.length : ℚ) + (a.length : ℚ)) ≠ 0 := by
      have hp : (0 : ℚ) < (a.length : ℚ) + (a.length : ℚ) := by
        have : 0 < a.length := Nat.pos_of_ne_zero hn
        positivity
      exact ne_of_gt hp
    rw [div_eq_one_iff_eq hq]
    ring

theorem seqRatio_disjoint (a b : List String) (hd : ∀ x ∈ a, x ∉ b)
    (hne : a ≠ [] ∨ b ≠ []) : seqRatio a b = 0 := by
  have hlen : a.length + b.length ≠ 0 := by
    rcases hne with h | h
    · have : 0 < a.length := List.length_pos.mpr h
      omega
    · have : 0 < b.length := List.length_pos.mpr h
      omega
  unfold seqRatio
  rw [if_neg hlen, matchTotal_disjoint (isPopular b) a b hd]
  simp

theorem seqRatio_nil_right (a : List String) (h : a ≠ []) :
    seqRatio a [] = 0 := by
  have hlen : a.length + ([] : List String).length ≠ 0 := by
    have hp : 0 < a.length := List.length_pos.mpr h
    simp only [List.length_nil]
    omega
  unfold seqRatio
  rw [if_neg hlen, matchTotal_nil_right]
  simp

/-! ### Lemmas about the balance pass -/

/-- The page loop with the final-page store disabled: how every page except
the last list element is processed. -/
def goNL (tol : ℚ) : VState → List AIPage → VState
  | st, [] => st
  | st, p :: ps => goNL tol (processPage tol st p false) ps

theorem processPage_prev (tol : ℚ) (st : VState) (p : AIPage) (b : Bool) :
    (processPage tol st p b).previous_closing = nextPrev st.previous_closing p := by
  unfold processPage nextPrev
  cases p.transactions with
  | none => rfl
  | some txs =>
      cases effectiveOpening st.previous_closing (openingRaw p) with
      | none => rfl
      | some ob => cases b <;> simp

theorem processPage_any (tol : ℚ) (st : VState) (p : AIPage) (b : Bool) :
    (processPage tol st p b).any_mismatch =
      (st.any_mismatch || pageMismatch tol st.previous_closing p) := by
  unfold processPage pageMismatch
  cases p.transactions with
  | none => simp
  | some txs =>
      cases effectiveOpening st.previous_closing (openingRaw p) with
      | none => simp
      | some ob => cases pyFloat (closingRaw p) <;> cases b <;> simp

theorem processPage_total (tol : ℚ) (st : VState) (p : AIPage) (b : Bool) :
    (processPage tol st p b).total_transactions =
      st.total_transactions + pageTxCount st.previous_closing p := by
  unfold processPage pageTxCount
  cases p.transactions with
  | none => simp
  | some txs =>
      cases effectiveOpening st.previous_closing (openingRaw p) with
      | none => simp
      | some ob => cases b <;> simp

theorem processPage_finals_false (tol : ℚ) (st : VState) (p : AIPage) :
    (processPage tol st p false).opening_balance = st.opening_balance ∧
    (processPage tol st p false).closing_balance = st.closing_balance ∧
    (processPage tol st p false).transaction_count = st.transaction_count ∧
    (processPage tol st p false).computed_vs_stated_diff =
      st.computed_vs_stated_diff := by
  unfold processPage
  cases p.transactions with
  | none => exact ⟨rfl, rfl, rfl, rfl⟩
  | some txs =>
      cases effectiveOpening st.previous_closing (openingRaw p) with
      | none => exact ⟨rfl, rfl, rfl, rfl⟩
      | some ob => simp

theorem processPage_of_skip (tol : ℚ) (st : VState) (p : AIPage) (b : Bool)
    (h : p.transactions = none ∨
      effectiveOpening st.previous_closing (openingRaw p) = none) :
    processPage tol st p b = st := by
  rcases h with h | h
  · simp [processPage, h]
  · cases hp : p.transactions with
    | none => simp [processPage, hp]
    | some txs => simp [processPage, hp, h]

theorem processPage_store (tol : ℚ) (st : VState) (p : AIPage)
    (txs : List Tx) (ob : ℚ)
    (h1 : p.transactions = some txs)
    (h2 : effectiveOpening st.previous_closing (openingRaw p) = some ob) :
    (processPage tol st p true).opening_balance = some ob ∧
    (processPage tol st p true).closing_balance =
      some ((pyFloat (closingRaw p)).getD (ob + txSum txs)) ∧
    (processPage tol st p true).transaction_count =
      st.total_transactions + txs.length ∧
    (processPage tol st p true).computed_vs_stated_diff =
      (match pyFloat (closingRaw p) with
        | some c => |ob + txSum txs - c|
        | none => 0) := by
  unfold processPage
  rw [h1, h2]
  cases pyFloat (closingRaw p) <;> simp

theorem goBalance_any (tol : ℚ) (ps : List AIPage) :
    ∀ st : VState, (goBalance tol st ps).any_mismatch =
      (st.any_mismatch || anyMismatch tol st.previous_closing ps) := by
  induction ps with
  | nil => intro st; simp [goBalance, anyMismatch]
  | cons p ps ih =>
      intro st
      rw [goBalance, ih, processPage_any, processPage_prev]
      simp [anyMismatch, Bool.or_assoc]

theorem goBalance_prev (tol : ℚ) (ps : List AIPage) :
    ∀ st : VState, (goBalance tol st ps).previous_closing =
      prevAfter st.previous_closing ps := by
  induction ps with
  | nil => intro st; simp [goBalance, prevAfter]
  | cons p ps ih =>
      intro st
      rw [goBalance, ih, processPage_prev]
      simp [prevAfter]

theorem goBalance_total (tol : ℚ) (ps : List AIPage) :
    ∀ st : VState, (goBalance tol st ps).total_transactions =
      st.total_transactions + processedTxCount st.previous_closing ps := by
  induction ps with
  | nil => intro st; simp [goBalance, processedTxCount]
  | cons p ps ih =>
      intro st
      rw [goBalance, ih, processPage_total, processPage_prev]
      simp [processedTxCount, Nat.add_assoc]

theorem goNL_prev (tol : ℚ) (ps : List AIPage) :
    ∀ st : VState, (goNL tol st ps).previous_closing =
      prevAfter st.previous_closing ps := by
  induction ps with
  | nil => intro st; simp [goNL, prevAfter]
  | cons p ps ih =>
      intro st
      rw [goNL, ih, processPage_prev]
      simp [prevAfter]

theorem goNL_total (tol : ℚ) (ps : List AIPage) :
    ∀ st : VState, (goNL tol st ps).total_transactions =
      st.total_transactions + processedTxCount st.previous_closing ps := by
  induction ps with
  | nil => intro st; simp [goNL, processedTxCount]
  | cons p ps ih =>
      intro st
      rw [goNL, ih, processPage_total, processPage_prev]
      simp [processedTxCount, Nat.add_assoc]

theorem goNL_finals (tol : ℚ) (ps : List AIPage) :
    ∀ st : VState,
      (goNL tol st ps).opening_balance = st.opening_balance ∧
      (goNL tol st ps).closing_balance = st.closing_balance ∧
      (goNL tol st ps).transaction_count = st.transaction_count ∧
      (goNL tol st ps).computed_vs_stated_diff = st.computed_vs_stated_diff := by
  induction ps with
  | nil => intro st; exact ⟨rfl, rfl, rfl, rfl⟩
  | cons p ps ih =>
      intro st
      obtain ⟨i1, i2, i3, i4⟩ := ih (processPage tol st p false)
      obtain ⟨f1, f2, f3, f4⟩ := processPage_finals_false tol st p
      exact ⟨by rw [goNL, i1, f1], by rw [goNL, i2, f2],
        by rw [goNL, i3, f3], by rw [goNL, i4, f4]⟩

theorem goBalance_append_single (tol : ℚ) (xs : List AIPage) (p : AIPage) :
    ∀ st : VState,
      goBalance tol st (xs ++ [p]) = processPage tol (goNL tol st xs) p true := by
  induction xs with
  | nil => intro st; simp [goBalance, goNL, List.isEmpty]
  | cons x xs ih =>
      intro st
      rw [List.cons_append, goBalance, goNL]
      have hne : (xs ++ [p]).isEmpty = false := by simp
      rw [hne, ih]

/-! ### Concrete pages used by witnesses and counterexamples -/

def abcText : String := "abc"

def c1wSt : VState := { initState with previous_closing := some 50 }

def c1wPage : AIPage :=
  { page_number := 1, page_text := none, opening_balance := none,
    closing_balance := none, transactions := some [{ amount := some (.num 7) }] }

def c1wPage3 : AIPage :=
  { page_number := 1, page_text := none, opening_balance := some (.num 25),
    closing_balance := none, transactions := some [] }

theorem pyFloat_unknown : pyFloat (.str unknownText) = none := by decide

theorem effectiveOpening_num (prev : Option ℚ) (q : ℚ) :
    effectiveOpening prev (.num q) = some q := by
  simp [effectiveOpening, pyFloat]

theorem effectiveOpening_unknown_some (q : ℚ) :
    effectiveOpening (some q) (.str unknownText) = some q := by
  simp [effectiveOpening]

theorem effectiveOpening_unknown_none :
    effectiveOpening none (.str unknownText) = none := by
  simp [effectiveOpening, pyFloat_unknown]

/-! ### Claim C1 -/

/-- C1: balance carry-forward state rules.  For any page reaching the
balance loop with a valid transactions list: if the raw opening is the
absent sentinel and a previous computed closing is carried, that closing
becomes the page's effective opening (and the carried state advances with
it); if the raw opening is the absent sentinel and no closing is carried,
the page is skipped with the whole state unchanged; and whenever the raw
opening parses as a number, that explicit value is the effective opening no
matter what closing is carried. -/
theorem c1_carry_forward_state_rules (tol : ℚ) (st : VState) (p : AIPage)
    (b : Bool) :
    (∀ pc txs, openingRaw p = .str unknownText → st.previous_closing = some pc →
      p.transactions = some txs →
      effectiveOpening st.previous_closing (openingRaw p) = some pc ∧
      (processPage tol st p b).previous_closing = some (pc + txSum txs)) ∧
    (openingRaw p = .str unknownText → st.previous_closing = none →
      effectiveOpening st.previous_closing (openingRaw p) = none ∧
      processPage tol st p b = st) ∧
    (∀ v, pyFloat (openingRaw p) = some v →
      effectiveOpening st.previous_closing (openingRaw p) = some v) := by
  refine ⟨?_, ?_, ?_⟩
  · intro pc txs hro hpc htx
    have he : effectiveOpening st.previous_closing (openingRaw p) = some pc := by
      unfold effectiveOpening
      rw [if_pos ⟨hro, by rw [hpc]; rfl⟩, hpc]
    refine ⟨he, ?_⟩
    rw [processPage_prev]
    simp [nextPrev, htx, he]
  · intro hro hpn
    have he : effectiveOpening st.previous_closing (openingRaw p) = none := by
      unfold effectiveOpening
      rw [if_neg (by rw [hpn]; rintro ⟨h1, h2⟩; simp at h2), hro]
      exact pyFloat_unknown
    exact ⟨he, processPage_of_skip tol st p b (Or.inr he)⟩
  · intro v hv
    have hcond : ¬(openingRaw p = .str unknownText ∧
        st.previous_closing.isSome = true) := by
      rintro ⟨h1, h2⟩
      rw [h1] at hv
      have hu : pyFloat (.str unknownText) = none := by decide
      rw [hu] at hv
      exact Option.noConfusion hv
    unfold effectiveOpening
    rw [if_neg hcond]
    exact hv

theorem c1_witness :
    (effectiveOpening c1wSt.previous_closing (openingRaw c1wPage) = some 50 ∧
      (processPage (1/100) c1wSt c1wPage false).previous_closing = some 57) ∧
    (effectiveOpening initState.previous_closing (openingRaw c1wPage) = none ∧
      processPage (1/100) initState c1wPage false = initState) ∧
    effectiveOpening c1wSt.previous_closing (openingRaw c1wPage3) = some 25 := by
  have h1 := (c1_carry_forward_state_rules (1/100) c1wSt c1wPage false).1 50
    [{ amount := some (.num 7) }] rfl rfl rfl
  have h2 := (c1_carry_forward_state_rules (1/100) initState c1wPage false).2.1
    rfl rfl
  have h3 := (c1_carry_forward_state_rules (1/100) c1wSt c1wPage3 false).2.2 25
    rfl
  refine ⟨⟨h1.1, ?_⟩, h2, h3⟩
  rw [h1.2]
  norm_num [txSum, txAmount, amountRaw, pyFloat]

/-! ### Claim C3 -/

/-- C3: for every page, the mismatch accumulator grows exactly by that
page's mismatch flag; a processed page mismatches iff a numeric stated
closing exists and the absolute difference strictly exceeds the tolerance;
with no parseable stated closing the page records no difference but its
computed closing still becomes the carried `previous_closing`; and the
report's `balance_mismatch` is true iff some processed page mismatched. -/
theorem c3_mismatch_rules (tol : ℚ) (st : VState) (p : AIPage) (b : Bool)
    (pages : List AIPage) :
    ((processPage tol st p b).any_mismatch =
      (st.any_mismatch || pageMismatch tol st.previous_closing p)) ∧
    (∀ txs ob, p.transactions = some txs →
      effectiveOpening st.previous_closing (openingRaw p) = some ob →
      (∀ c, pyFloat (closingRaw p) = some c →
        pageMismatch tol st.previous_closing p =
          decide (tol < |ob + txSum txs - c|)) ∧
      (pyFloat (closingRaw p) = none →
        pageMismatch tol st.previous_closing p = false ∧
        (processPage tol st p true).computed_vs_stated_diff = 0) ∧
      (processPage tol st p b).previous_closing = some (ob + txSum txs)) ∧
    ((verify_opening_closing_balance_consistency pages tol).balance_mismatch =
      anyMismatch tol none pages) := by
  refine ⟨processPage_any tol st p b, ?_, ?_⟩
  · intro txs ob h1 h2
    refine ⟨?_, ?_, ?_⟩
    · intro c hc
      unfold pageMismatch
      rw [h1, h2, hc]
    · intro hc
      constructor
      · unfold pageMismatch
        rw [h1, h2, hc]
      · have h4 := (processPage_store tol st p txs ob h1 h2).2.2.2
        rw [h4, hc]
    · rw [processPage_prev]
      simp [nextPrev, h1, h2]
  · unfold verify_opening_closing_balance_consistency
    simp only []
    rw [goBalance_any]
    rfl

def c3wPage : AIPage :=
  { page_number := 1, page_text := none, opening_balance := some (.num 500),
    closing_balance := some (.num 800),
    transactions := some [{ amount := some (.num 200) }] }

theorem c3_witness :
    pageMismatch (1/100) none c3wPage = true ∧
    (processPage (1/100) initState c3wPage false).previous_closing = some 700 ∧
    (verify_opening_closing_balance_consistency [c3wPage] (1/100)).balance_mismatch
      = true := by
  have h := c3_mismatch_rules (1/100) initState c3wPage false [c3wPage]
  have hb := h.2.1 [{ amount := some (.num 200) }] 500 rfl rfl
  have hm : pageMismatch (1/100) none c3wPage =
      decide ((1 : ℚ)/100 <
        |500 + txSum [{ amount := some (.num 200) }] - 800|) := hb.1 800 rfl
  have hpm : pageMismatch (1/100) none c3wPage = true := by
    rw [hm, decide_eq_true_eq]
    norm_num [txSum, txAmount, amountRaw, pyFloat]
  refine ⟨hpm, ?_, ?_⟩
  · rw [hb.2.2]
    norm_num [txSum, txAmount, amountRaw, pyFloat]
  · rw [h.2.2]
    simp only [anyMismatch, Bool.or_false]
    exact hpm

/-! ### Claim C10 -/

/-- C10: a transaction whose amount does not parse contributes exactly zero
to the page's transaction sum — removing it from the list leaves the sum
unchanged, and the surrounding transactions before and after it are summed
as usual (the model is total: no amount value aborts the pass). -/
theorem c10_unparseable_amount_contributes_zero (pre post : List Tx) (t : Tx)
    (h : pyFloat (amountRaw t) = none) :
    txSum (pre ++ t :: post) = txSum (pre ++ post) := by
  simp [txSum, txAmount, h]

def c10wBad : Tx := { amount := some (.str abcText) }

theorem c10_witness :
    pyFloat (amountRaw c10wBad) = none ∧
    txSum [{ amount := some (.num 5) }, c10wBad, { amount := some (.num 3) }] =
      txSum [{ amount := some (.num 5) }, { amount := some (.num 3) }] :=
  ⟨by decide,
    c10_unparseable_amount_contributes_zero [{ amount := some (.num 5) }]
      [{ amount := some (.num 3) }] c10wBad (by decide)⟩

/-! ### Claim C6 -/

def c6wA : AIPage :=
  { page_number := 2, page_text := none, opening_balance := some (.num 100),
    closing_balance := none, transactions := some [{ amount := some (.num 5) }] }

def c6wB : AIPage :=
  { page_number := 1, page_text := none, opening_balance := none,
    closing_balance := none, transactions := some [] }

/-- C6 counterexample: the reconciler does not process pages in ascending
`page_number` order.  With the list `[page#2, page#1]`, page number 1
consumes the closing computed by page number 2 (a higher page number) and
the run differs from the ascending-order run `[page#1, page#2]`: the claim
would make both runs agree and would skip page number 1. -/
theorem c6_counterexample :
    (verify_opening_closing_balance_consistency [c6wA, c6wB]
      (1/100)).opening_balance = some 105 ∧
    (verify_opening_closing_balance_consistency [c6wB, c6wA]
      (1/100)).opening_balance = some 100 := by
  constructor
  · have happ := goBalance_append_single (1/100) [c6wA] c6wB initState
    have e1 : prevAfter none [c6wA] = some 105 := by
      simp [prevAfter, nextPrev, c6wA, openingRaw, effectiveOpening_num]
      norm_num [txSum, txAmount, amountRaw, pyFloat]
    have e2 : effectiveOpening
        (goNL (1/100) initState [c6wA]).previous_closing (openingRaw c6wB) =
        some 105 := by
      rw [goNL_prev]
      show effectiveOpening (prevAfter none [c6wA]) (openingRaw c6wB) = some 105
      rw [e1]
      exact effectiveOpening_unknown_some 105
    have hs := processPage_store (1/100) (goNL (1/100) initState [c6wA]) c6wB
      [] 105 rfl e2
    show (verify_opening_closing_balance_consistency ([c6wA] ++ [c6wB])
      (1/100)).opening_balance = some 105
    unfold verify_opening_closing_balance_consistency
    simp only [happ]
    exact hs.1
  · have happ := goBalance_append_single (1/100) [c6wB] c6wA initState
    have hskipB : goNL (1/100) initState [c6wB] = initState := by
      show goNL (1/100) (processPage (1/100) initState c6wB false) [] = initState
      show processPage (1/100) initState c6wB false = initState
      apply processPage_of_skip
      right
      exact effectiveOpening_unknown_none
    have e3 : effectiveOpening
        (goNL (1/100) initState [c6wB]).previous_closing (openingRaw c6wA) =
        some 100 := by
      rw [hskipB]
      exact effectiveOpening_num none 100
    have hs := processPage_store (1/100) (goNL (1/100) initState [c6wB]) c6wA
      [{ amount := some (.num 5) }] 100 rfl e3
    show (verify_opening_closing_balance_consistency ([c6wB] ++ [c6wA])
      (1/100)).opening_balance = some 100
    unfold verify_opening_closing_balance_consistency
    simp only [happ]
    exact hs.1

/-- C6 amended: the reconciler processes the AI page list in its given list
order and never consults `page_number` at all — relabelling every page
number arbitrarily leaves the whole report unchanged, so the carried
`previous_closing` consumed by a page is the computed closing of the most
recently processed earlier *list element*, not of any page-number
predecessor. -/
theorem c6_list_order_processing (f : ℕ → ℕ) (pages : List AIPage) (tol : ℚ) :
    verify_opening_closing_balance_consistency
      (pages.map fun p => { p with page_number := f p.page_number }) tol =
    verify_opening_closing_balance_consistency pages tol := by
  unfold verify_opening_closing_balance_consistency
  suffices h : ∀ st, goBalance tol st
      (pages.map fun p => { p with page_number := f p.page_number }) =
      goBalance tol st pages by
    rw [h]
  induction pages with
  | nil => intro st; rfl
  | cons p ps ih =>
      intro st
      rw [List.map_cons, goBalance, goBalance]
      have hie : (ps.map fun p => { p with page_number := f p.page_number }).isEmpty
          = ps.isEmpty := by
        cases ps <;> rfl
      rw [hie]
      have hpp : processPage tol st { p with page_number := f p.page_number }
          ps.isEmpty = processPage tol st p ps.isEmpty := rfl
      rw [hpp, ih]

/-! ### Claim C2 -/

def c2wGood : AIPage :=
  { page_number := 1, page_text := none, opening_balance := some (.num 100),
    closing_balance := none, transactions := some [{ amount := some (.num 5) }] }

def c2wBad : AIPage :=
  { page_number := 2, page_text := none, opening_balance := some (.num 1),
    closing_balance := none, transactions := none }

/-- C2 counterexample: the report does *not* hold the last processed page's
values when pages after it are skipped.  Page 1 is processed (the state
visibly changes), page 2 is skipped, and the final report keeps opening
balance `null` and transaction count `0` instead of page 1's opening `100`
and count `1`. -/
theorem c2_counterexample :
    processPage (1/100) initState c2wGood false ≠ initState ∧
    (verify_opening_closing_balance_consistency [c2wGood, c2wBad]
      (1/100)).opening_balance = none ∧
    (verify_opening_closing_balance_consistency [c2wGood, c2wBad]
      (1/100)).transaction_count = 0 := by
  have happ := goBalance_append_single (1/100) [c2wGood] c2wBad initState
  have hsk : processPage (1/100) (goNL (1/100) initState [c2wGood]) c2wBad true =
      goNL (1/100) initState [c2wGood] :=
    processPage_of_skip _ _ _ _ (Or.inl rfl)
  obtain ⟨f1, f2, f3, f4⟩ := goNL_finals (1/100) [c2wGood] initState
  refine ⟨?_, ?_, ?_⟩
  · intro hEq
    have hpc := congrArg VState.previous_closing hEq
    rw [processPage_prev] at hpc
    have hn : nextPrev none c2wGood = some 105 := by
      simp [nextPrev, c2wGood, openingRaw, effectiveOpening_num]
      norm_num [txSum, txAmount, amountRaw, pyFloat]
    have hpc2 : nextPrev none c2wGood = none := hpc
    rw [hn] at hpc2
    exact Option.noConfusion hpc2
  · show (verify_opening_closing_balance_consistency ([c2wGood] ++ [c2wBad])
      (1/100)).opening_balance = none
    unfold verify_opening_closing_balance_consistency
    simp only [happ, hsk]
    rw [f1]
    rfl
  · show (verify_opening_closing_balance_consistency ([c2wGood] ++ [c2wBad])
      (1/100)).transaction_count = 0
    unfold verify_opening_closing_balance_consistency
    simp only [happ, hsk]
    rw [f3]
    rfl

/-- C2 amended: the final report fields come from the last *list element*,
not the last processed page.  If the final list element is processed, the
report records its effective opening, its stated closing when parseable
(else its computed closing), the transaction count over all processed pages,
and its diff (`0` when no diff was computed).  If the final list element is
skipped, the report keeps the initialized values — opening and closing
`null`, transaction count `0`, diff `0` — regardless of earlier processed
pages. -/
theorem c2_finals_from_last_list_element (tol : ℚ) (xs : List AIPage)
    (p : AIPage) :
    (∀ txs ob, p.transactions = some txs →
      effectiveOpening (prevAfter none xs) (openingRaw p) = some ob →
      (verify_opening_closing_balance_consistency (xs ++ [p])
        tol).opening_balance = some ob ∧
      (verify_opening_closing_balance_consistency (xs ++ [p])
        tol).closing_balance =
          some ((pyFloat (closingRaw p)).getD (ob + txSum txs)) ∧
      (verify_opening_closing_balance_consistency (xs ++ [p])
        tol).transaction_count = processedTxCount none xs + txs.length ∧
      (verify_opening_closing_balance_consistency (xs ++ [p])
        tol).computed_vs_stated_diff =
          (match pyFloat (closingRaw p) with
            | some c => |ob + txSum txs - c|
            | none => 0)) ∧
    ((p.transactions = none ∨
        effectiveOpening (prevAfter none xs) (openingRaw p) = none) →
      (verify_opening_closing_balance_consistency (xs ++ [p])
        tol).opening_balance = none ∧
      (verify_opening_closing_balance_consistency (xs ++ [p])
        tol).closing_balance = none ∧
      (verify_opening_closing_balance_consistency (xs ++ [p])
        tol).transaction_count = 0 ∧
      (verify_opening_closing_balance_consistency (xs ++ [p])
        tol).computed_vs_stated_diff = 0) := by
  have hprev : (goNL tol initState xs).previous_closing = prevAfter none xs := by
    rw [goNL_prev]
    rfl
  have happ := goBalance_append_single tol xs p initState
  constructor
  · intro txs ob h1 h2
    have h2s : effectiveOpening (goNL tol initState xs).previous_closing
        (openingRaw p) = some ob := by
      rw [hprev]; exact h2
    obtain ⟨s1, s2, s3, s4⟩ :=
      processPage_store tol (goNL tol initState xs) p txs ob h1 h2s
    have htot : (goNL tol initState xs).total_transactions =
        processedTxCount none xs := by
      rw [goNL_total]
      simp [initState]
    unfold verify_opening_closing_balance_consistency
    simp only [happ]
    refine ⟨s1, s2, ?_, s4⟩
    rw [s3, htot]
  · intro h
    have hsk : processPage tol (goNL tol initState xs) p true =
        goNL tol initState xs := by
      apply processPage_of_skip
      rcases h with h | h
      · exact Or.inl h
      · right
        rw [hprev]
        exact h
    obtain ⟨f1, f2, f3, f4⟩ := goNL_finals tol xs initState
    unfold verify_opening_closing_balance_consistency
    simp only [happ, hsk]
    refine ⟨?_, ?_, ?_, ?_⟩
    · rw [f1]; rfl
    · rw [f2]; rfl
    · rw [f3]; rfl
    · rw [f4]; rfl

def c2wLast : AIPage :=
  { page_number := 2, page_text := none, opening_balance := some (.num 7),
    closing_balance := some (.num 10),
    transactions := some [{ amount := some (.num 2) }] }

theorem c2_witness :
    (verify_opening_closing_balance_consistency (([c2wGood] : List AIPage)
      ++ [c2wLast]) (1/100)).opening_balance = some 7 ∧
    (verify_opening_closing_balance_consistency (([c2wGood] : List AIPage)
      ++ [c2wLast]) (1/100)).closing_balance = some 10 ∧
    (verify_opening_closing_balance_consistency (([c2wGood] : List AIPage)
      ++ [c2wLast]) (1/100)).transaction_count = 2 ∧
    (verify_opening_closing_balance_consistency (([c2wGood] : List AIPage)
      ++ [c2wLast]) (1/100)).computed_vs_stated_diff = 1 := by
  have hp : prevAfter none [c2wGood] = some 105 := by
    simp [prevAfter, nextPrev, c2wGood, openingRaw, effectiveOpening_num]
    norm_num [txSum, txAmount, amountRaw, pyFloat]
  have h2 : effectiveOpening (prevAfter none [c2wGood]) (openingRaw c2wLast) =
      some 7 := by
    rw [hp]
    exact effectiveOpening_num (some 105) 7
  have h := (c2_finals_from_last_list_element (1/100) [c2wGood] c2wLast).1
    [{ amount := some (.num 2) }] 7 rfl h2
  refine ⟨h.1, ?_, ?_, ?_⟩
  · rw [h.2.1]
    simp [closingRaw, c2wLast, pyFloat]
  · rw [h.2.2.1]
    have hc : processedTxCount none [c2wGood] = 1 := by
      simp [processedTxCount, pageTxCount, nextPrev, c2wGood, openingRaw,
        effectiveOpening_num]
    rw [hc]
    rfl
  · rw [h.2.2.2]
    norm_num [closingRaw, c2wLast, pyFloat, txSum, txAmount, amountRaw]

/-! ### Claim C7 -/

/-- C7: the per-page word-similarity ratio always lies in `[0,1]`; identical
token sequences score exactly `1`; two empty sequences score `1`; token
sequences with disjoint vocabularies (at least one of them holding a token)
score `0`; and a nonempty sequence against an empty one scores `0`. -/
theorem c7_similarity_ratio_properties (a b : List String) :
    (0 ≤ seqRatio a b ∧ seqRatio a b ≤ 1) ∧
    seqRatio a a = 1 ∧
    seqRatio ([] : List String) ([] : List String) = 1 ∧
    ((∀ x ∈ a, x ∉ b) → (a ≠ [] ∨ b ≠ []) → seqRatio a b = 0) ∧
    (a ≠ [] → seqRatio a [] = 0) :=
  ⟨⟨seqRatio_nonneg a b, seqRatio_le_one a b⟩, seqRatio_self a,
    seqRatio_self [], fun hd hne => seqRatio_disjoint a b hd hne,
    fun h => seqRatio_nil_right a h⟩

def xToken : String := "x"

def yToken : String := "y"

theorem c7_witness :
    (0 ≤ seqRatio [xToken] [yToken] ∧ seqRatio [xToken] [yToken] ≤ 1) ∧
    seqRatio [xToken] [xToken] = 1 ∧
    seqRatio [xToken] [yToken] = 0 ∧
    seqRatio [xToken] [] = 0 := by
  have h := c7_similarity_ratio_properties [xToken] [yToken]
  exact ⟨h.1, (c7_similarity_ratio_properties [xToken] [xToken]).2.1,
    h.2.2.2.1 (by decide) (by decide), h.2.2.2.2 (by decide)⟩

/-! ### Claim C4 -/

/-- C4 counterexample: with both page collections empty, the overall text
similarity stored by `compare_text` is `0`, not the claimed vacuous-match
value `1.0` (the `else` branch of the overall-similarity computation). -/
theorem c4_counterexample :
    (compare_text ([] : List AIPage) ([] : List PdfPage)).ai_word_similarity
      = 0 := by
  rfl

/-- C4 amended: with both page collections empty no exception is raised (the
model is a total function) and the degenerate report holds overall text
similarity `0`, numeric match ratio `0`, numeric count diff `0`, null
opening and closing balances, and no balance mismatch. -/
theorem c4_degenerate_report :
    (compare_text ([] : List AIPage) ([] : List PdfPage)).ai_word_similarity
      = 0 ∧
    (compare_numbers ([] : List AIPage)
      ([] : List PdfPage)).ai_numeric_match_ratio = 0 ∧
    (compare_numbers ([] : List AIPage)
      ([] : List PdfPage)).ai_numeric_count_diff = 0 ∧
    (verify_opening_closing_balance_consistency [] (1/100)).opening_balance
      = none ∧
    (verify_opening_closing_balance_consistency [] (1/100)).closing_balance
      = none ∧
    (verify_opening_closing_balance_consistency [] (1/100)).balance_mismatch
      = false :=
  ⟨rfl, rfl, rfl, rfl, rfl, rfl⟩

/-! ### Claim C5 -/

def helloText : String := "hello"

def c5wPage : AIPage :=
  { page_number := 2, page_text := some helloText, opening_balance := none,
    closing_balance := none, transactions := none }

/-- C5 counterexample: the comparisons visit page numbers `1` to the larger
*list length*, not to the largest page number.  With a single AI page
numbered 2 and no PDF pages, only page number 1 is visited — the claim
demands the visited sequence `[1, 2]`. -/
theorem c5_counterexample :
    ((compare_text [c5wPage] ([] : List PdfPage)).page_similarities.map
      Prod.fst) = [1] ∧ ([1] : List ℕ) ≠ [1, 2] := by
  constructor
  · rfl
  · decide

/-- C5 amended: the text and numeric comparisons visit exactly the page
numbers `1` to `max(len(ai_pages), len(pdf_pages))` (so pages numbered
outside that range are dropped), and a side on which the lookup of a
visited page number fails participates with the text `"unknown"` in the
text comparison (one token, not an empty sequence) and with the empty
string in the numeric comparison (no numeric tokens). -/
theorem c5_visited_pages_and_defaults (ai : List AIPage) (pdf : List PdfPage) :
    ((compare_text ai pdf).page_similarities.map Prod.fst =
      List.range' 1 (max ai.length pdf.length)) ∧
    (∀ pn, (ai.find? fun p => p.page_number == pn) = none →
      aiTextAt ai pn = unknownText ∧ aiNumTextAt ai pn = emptyText) ∧
    (∀ pn, (pdf.find? fun p => p.page_number == pn) = none →
      pdfTextAt pdf pn = unknownText ∧ pdfNumTextAt pdf pn = emptyText) := by
  refine ⟨?_, ?_, ?_⟩
  · simp [compare_text, Function.comp_def]
  · intro pn h
    constructor
    · simp [aiTextAt, h]
    · simp [aiNumTextAt, h]
  · intro pn h
    constructor
    · simp [pdfTextAt, h]
    · simp [pdfNumTextAt, h]

theorem c5_witness :
    aiTextAt ([] : List AIPage) 1 = unknownText ∧
    aiNumTextAt ([] : List AIPage) 1 = emptyText ∧
    pdfTextAt ([] : List PdfPage) 1 = unknownText ∧
    pdfNumTextAt ([] : List PdfPage) 1 = emptyText := by
  have h := c5_visited_pages_and_defaults ([] : List AIPage) ([] : List PdfPage)
  obtain ⟨h1, h2⟩ := h.2.1 1 (by decide)
  obtain ⟨h3, h4⟩ := h.2.2 1 (by decide)
  exact ⟨h1, h2, h3, h4⟩

/-! ### Claim C8 -/

/-- Total common numeric-token count over the visited pages. -/
def totalCommon (ai : List AIPage) (pdf : List PdfPage) : ℕ :=
  ((List.range' 1 (max ai.length pdf.length)).map fun pn =>
    commonCount (extract_numbers (aiNumTextAt ai pn))
      (extract_numbers (pdfNumTextAt pdf pn))).sum

/-- Total AI-side numeric-token count over the visited pages. -/
def totalAiCount (ai : List AIPage) (pdf : List PdfPage) : ℕ :=
  ((List.range' 1 (max ai.length pdf.length)).map fun pn =>
    (extract_numbers (aiNumTextAt ai pn)).length).sum

/-- Total PDF-side numeric-token count over the visited pages. -/
def totalPdfCount (ai : List AIPage) (pdf : List PdfPage) : ℕ :=
  ((List.range' 1 (max ai.length pdf.length)).map fun pn =>
    (extract_numbers (pdfNumTextAt pdf pn)).length).sum

theorem foldl_triple_sum (f g k : ℕ → ℕ) (l : List ℕ) :
    ∀ a b c : ℕ,
      l.foldl (fun (acc : ℕ × ℕ × ℕ) pn =>
        (acc.1 + f pn, acc.2.1 + g pn, acc.2.2 + k pn)) (a, b, c) =
      (a + (l.map f).sum, b + (l.map g).sum, c + (l.map k).sum) := by
  induction l with
  | nil => intro a b c; simp
  | cons x xs ih =>
      intro a b c
      simp only [List.foldl_cons, List.map_cons, List.sum_cons]
      rw [ih]
      simp [Nat.add_assoc]

/-- C8: the document-level numeric match ratio is
`total_common / max(total_ai, total_pdf) × 100` (and `0` when both totals
are `0`), and the document-level numeric count difference is the absolute
difference of the two whole-document totals — computed once from the totals
accumulated over all visited pages, not as a per-page sum of absolute
differences. -/
theorem c8_numeric_totals_formula (ai : List AIPage) (pdf : List PdfPage) :
    (compare_numbers ai pdf).ai_numeric_match_ratio =
      (if max (totalAiCount ai pdf) (totalPdfCount ai pdf) = 0 then 0
        else (totalCommon ai pdf : ℚ) /
          (max (totalAiCount ai pdf) (totalPdfCount ai pdf) : ℚ) * 100) ∧
    (compare_numbers ai pdf).ai_numeric_count_diff =
      ((totalAiCount ai pdf : ℤ) - (totalPdfCount ai pdf : ℤ)).natAbs := by
  have hf := foldl_triple_sum
    (fun pn => commonCount (extract_numbers (aiNumTextAt ai pn))
      (extract_numbers (pdfNumTextAt pdf pn)))
    (fun pn => (extract_numbers (aiNumTextAt ai pn)).length)
    (fun pn => (extract_numbers (pdfNumTextAt pdf pn)).length)
    (List.range' 1 (max ai.length pdf.length)) 0 0 0
  unfold compare_numbers totalCommon totalAiCount totalPdfCount
  simp only [hf, Nat.zero_add]
  constructor
  · by_cases hz : max
        ((List.range' 1 (max ai.length pdf.length)).map fun pn =>
          (extract_numbers (aiNumTextAt ai pn)).length).sum
        ((List.range' 1 (max ai.length pdf.length)).map fun pn =>
          (extract_numbers (pdfNumTextAt pdf pn)).length).sum = 0
    · simp [hz]
    · simp [hz, Nat.pos_of_ne_zero hz]
  · trivial

/-! ### Claim C9 -/

def text100dot : String := "100.0"

def text100 : String := "100"

/-- C9 counterexample: numeric tokens are compared as sign-stripped decimal
*strings*, not by magnitude.  The texts `"100.0"` and `"100"` each yield one
token denoting the magnitude one hundred, yet their common-token count is
`0` — the claim predicts these tokens match as the same multiset value. -/
theorem c9_counterexample :
    extract_numbers text100dot = [text100dot] ∧
    extract_numbers text100 = [text100] ∧
    commonCount (extract_numbers text100dot) (extract_numbers text100) = 0 := by
  refine ⟨?_, ?_, ?_⟩ <;> decide

/-- C9 amended: a leading `'+'` or `'-'` sign never affects the extracted
tokens (and hence never affects the common-token count): prepending a sign
to a text that starts with a digit extracts exactly the same token list.
Tokens match only when their sign-stripped strings are equal, so distinct
spellings of one magnitude (such as `"100"` and `"100.0"`) do not match. -/
theorem c9_sign_stripped_tokens (s : String) (c : Char) (rest : List Char)
    (hs : s.data = c :: rest) (hc : c.isDigit = true) :
    extract_numbers (String.mk ('+' :: s.data)) = extract_numbers s ∧
    extract_numbers (String.mk ('-' :: s.data)) = extract_numbers s := by
  unfold extract_numbers
  rw [hs]
  have hplus : ('+' : Char).isDigit = false := by decide
  have hminus : ('-' : Char).isDigit = false := by decide
  have hpp : (('+' : Char) == '+' || ('+' : Char) == '-') = true := by decide
  have hmm : (('-' : Char) == '+' || ('-' : Char) == '-') = true := by decide
  constructor
  · show scanAux ('+' :: c :: rest) .outside [] = scanAux (c :: rest) .outside []
    rw [scanAux, scanAux]
    simp [hplus, hpp, headIsDigit, hc, scanAux]
  · show scanAux ('-' :: c :: rest) .outside [] = scanAux (c :: rest) .outside []
    rw [scanAux, scanAux]
    simp [hminus, hmm, headIsDigit, hc, scanAux]

theorem c9_witness :
    extract_numbers (String.mk ('+' :: text100.data)) = extract_numbers text100 ∧
    extract_numbers (String.mk ('-' :: text100.data)) = extract_numbers text100 ∧
    commonCount (extract_numbers (String.mk ('+' :: text100.data)))
      (extract_numbers text100) = 1 := by
  have h := c9_sign_stripped_tokens text100 '1' ['0', '0'] (by decide) (by decide)
  refine ⟨h.1, h.2, ?_⟩
  rw [h.1]
  decide
